import Mathlib

/-!
# Verification of the assembly-line station pipeline engine

A shallow embedding of the station pipeline engine of this repository
(`detergent` / `assembly-line`), translated from the Go sources:

* `internal/config/config.go` — configuration parsing post-processing,
* `internal/ignore` (the `.lineignore` matcher wrapper),
* `internal/git` — branch naming, worktree base directory, commit helpers,
* `internal/state/state.go` — PID files, failure markers, agent killing,
* `internal/runner/agent.go` — the `Run` driver and `runStation` executor,
* `internal/engine` — the older concern engine's `commitChanges` and the
  `AcquireRunLock` flock wrapper.

External effects (git subprocesses, the file system, child processes) are
modelled by explicit state passing over a first-order state `St` plus an
oracle environment `Env` fixing the outcome of each external call, and by an
event trace `List Ev` recording the side effects in program order.
-/

namespace AsmLine

/-! ## Substring containment (Go `strings.Contains`) -/

/-- Returns `true` when `sub` occurs contiguously inside `hay` (Go `strings.Contains`
on the underlying character lists). -/
def listContainsSub (hay sub : List Char) : Bool :=
  match hay with
  | [] => sub.isEmpty
  | _ :: rest => sub.isPrefixOf hay || listContainsSub rest sub

/-- Go `strings.Contains s sub`. -/
def containsSub (s sub : String) : Bool :=
  listContainsSub s.data sub.data

/-- Subject of a commit message: the text before the first newline
(`git log --format=%s` on a message built with `-m`). -/
def subjectOf (msg : String) : String :=
  ⟨msg.data.takeWhile (fun c => c ≠ '\n')⟩

/-! ## Skip markers (`internal/runner/agent.go`) -/

/-- The marker `commitSkipMarker` appended to station commit messages. -/
def commitSkipMarker : String := "[skip line]"

/-- The list `SkipMarkers` of commit message markers that prevent retriggering. -/
def SkipMarkers : List String :=
  ["[skip ci]", "[ci skip]", commitSkipMarker, "[line skip]"]

/-! ## Configuration (`internal/config/config.go`) -/

structure AgentConfig where
  command : String
  args : List String
deriving DecidableEq, Repr

structure Station where
  name : String
  watches : String
  prompt : String
  command : String
  args : List String
  preamble : String
deriving DecidableEq, Repr

structure Settings where
  branchPrefix : String
  watches : String
deriving DecidableEq, Repr

structure Config where
  agent : AgentConfig
  settings : Settings
  stations : List Station
  preamble : String
deriving DecidableEq, Repr

/-- The positional `Watches` assignment loop at the end of `config.parse`:
the first station receives the (defaulted) `settings.watches`, every later
station receives the *name* of the station before it, overwriting whatever
the YAML contained. -/
def assignWatches : String → List Station → List Station
  | _, [] => []
  | w, s :: rest => { s with watches := w } :: assignWatches s.name rest

/-- Function `config.parse` after YAML unmarshalling: default `branch_prefix` to
`"line/"`, default `watches` to `"main"`, then run the positional watches
assignment. -/
def parse (cfg : Config) : Config :=
  let bp := if cfg.settings.branchPrefix = "" then "line/" else cfg.settings.branchPrefix
  let w := if cfg.settings.watches = "" then "main" else cfg.settings.watches
  { cfg with
    settings := { branchPrefix := bp, watches := w }
    stations := assignWatches w cfg.stations }

/-! ## `.lineignore` matcher (`internal/ignore`) -/

/-- Type `ignore.Matcher`: the compiled gitignore matcher is external
(`sabhiram/go-gitignore`); it is abstracted as a path predicate.  `gi = none`
models the nil matcher produced when no `.lineignore` file exists. -/
structure Matcher where
  gi : Option (String → Bool)

/-- Method `(*Matcher).AllIgnored`: nil matcher → `false`; empty file list →
`false`; otherwise every file must match. -/
def Matcher.AllIgnored (m : Matcher) (files : List String) : Bool :=
  match m.gi with
  | none => false
  | some p => if files.length = 0 then false else files.all p

/-- Outcome of looking for and compiling `.lineignore`: the file is absent,
compiled successfully to a predicate, or failed to compile. -/
inductive LoadOutcome where
  | absent
  | compiled (p : String → Bool)
  | failed

/-- Function `ignore.Load`: missing file yields a matcher that matches nothing;
a compile error is surfaced; otherwise the compiled matcher is wrapped. -/
def Load : LoadOutcome → Except Unit Matcher
  | .absent => .ok { gi := none }
  | .compiled p => .ok { gi := some p }
  | .failed => .error ()

/-! ## Git naming helpers (`internal/git`) -/

/-- Function `git.StationBranchName`: the branch name for a station — note the fixed
prefix; the configured `branch_prefix` is not consulted. -/
def StationBranchName (name : String) : String := "line/stn/" ++ name

/-- The commit message built in `runStation`
(`fmt.Sprintf("assembly-line: station %s %s", station.Name, commitSkipMarker)`). -/
def commitMessage (stationName : String) : String :=
  "assembly-line: station " ++ stationName ++ " " ++ commitSkipMarker

/-- ASCII uppercase of a character (the fragment of Go `strings.ToUpper`
exercised by station names). -/
def charUpper (c : Char) : Char :=
  if 'a' ≤ c ∧ c ≤ 'z' then Char.ofNat (c.toNat - 32) else c

/-- Go `strings.ToUpper` on ASCII strings. -/
def strToUpper (s : String) : String := ⟨s.data.map charUpper⟩

/-- The commit message built in the older concern engine's `commitChanges`
(`internal/engine/engine.go`):
`fmt.Sprintf("[%s] Agent changes\n\nTriggered-By: %s", strings.ToUpper(name), sha)`. -/
def engineCommitMessage (concernName triggeredBy : String) : String :=
  "[" ++ strToUpper concernName ++ "] Agent changes\n\nTriggered-By: " ++ triggeredBy

/-! ## SHA-256 (Go `crypto/sha256`, FIPS 180-4), over byte lists -/

def w32 (n : Nat) : Nat := n % 4294967296

def rotr (n x : Nat) : Nat := w32 ((x >>> n) ||| (x <<< (32 - n)))

def ch (e f g : Nat) : Nat := (e &&& f) ^^^ ((e ^^^ 4294967295) &&& g)

def maj (a b c : Nat) : Nat := (a &&& b) ^^^ (a &&& c) ^^^ (b &&& c)

def bigSigma0 (x : Nat) : Nat := rotr 2 x ^^^ rotr 13 x ^^^ rotr 22 x

def bigSigma1 (x : Nat) : Nat := rotr 6 x ^^^ rotr 11 x ^^^ rotr 25 x

def smallSigma0 (x : Nat) : Nat := rotr 7 x ^^^ rotr 18 x ^^^ (x >>> 3)

def smallSigma1 (x : Nat) : Nat := rotr 17 x ^^^ rotr 19 x ^^^ (x >>> 10)

def shaK : List Nat :=
  [1116352408, 1899447441, 3049323471, 3921009573, 961987163,
   1508970993, 2453635748, 2870763221, 3624381080, 310598401,
   607225278, 1426881987, 1925078388, 2162078206, 2614888103,
   3248222580, 3835390401, 4022224774, 264347078, 604807628,
   770255983, 1249150122, 1555081692, 1996064986, 2554220882,
   2821834349, 2952996808, 3210313671, 3336571891, 3584528711,
   113926993, 338241895, 666307205, 773529912, 1294757372,
   1396182291, 1695183700, 1986661051, 2177026350, 2456956037,
   2730485921, 2820302411, 3259730800, 3345764771, 3516065817,
   3600352804, 4094571909, 275423344, 430227734, 506948616,
   659060556, 883997877, 958139571, 1322822218, 1537002063,
   1747873779, 1955562222, 2024104815, 2227730452, 2361852424,
   2428436474, 2756734187, 3204031479, 3329325298]

structure Hash8 where
  a : Nat
  b : Nat
  c : Nat
  d : Nat
  e : Nat
  f : Nat
  g : Nat
  h : Nat
deriving DecidableEq, Repr

def shaH0 : Hash8 :=
  ⟨1779033703, 3144134277, 1013904242, 2773480762,
   1359893119, 2600822924, 528734635, 1541459225⟩

/-- Split a list into chunks of `n` elements (fuel-driven; the fuel is the
list length, enough to consume it entirely). -/
def chunksAux (n : Nat) : Nat → List Nat → List (List Nat)
  | 0, _ => []
  | _, [] => []
  | fuel + 1, l => l.take n :: chunksAux n fuel (l.drop n)

def chunks (n : Nat) (l : List Nat) : List (List Nat) := chunksAux n l.length l

/-- Big-endian byte serialisation of `n` into `count` bytes. -/
def beBytes (n count : Nat) : List Nat :=
  (List.range count).map (fun i => (n >>> (8 * (count - 1 - i))) &&& 255)

/-- Big-endian 32-bit word from four bytes. -/
def wordOfBytes (bs : List Nat) : Nat :=
  bs.foldl (fun acc b => acc * 256 + b) 0

/-- The SHA-256 padding: append `0x80`, zeros to 56 mod 64, then the bit length
as eight big-endian bytes. -/
def padMessage (msg : List Nat) : List Nat :=
  let z := (119 - msg.length % 64) % 64
  msg ++ [128] ++ List.replicate z 0 ++ beBytes (8 * msg.length) 8

/-- Message schedule: the 16 block words extended to 64. -/
def sched (ws : List Nat) : List Nat :=
  (List.range 48).foldl
    (fun w _ =>
      let i := w.length
      w ++ [w32 (smallSigma1 (w.getD (i - 2) 0) + w.getD (i - 7) 0 +
                 smallSigma0 (w.getD (i - 15) 0) + w.getD (i - 16) 0)])
    ws

def shaRound (s : Hash8) (kw : Nat × Nat) : Hash8 :=
  let t1 := w32 (s.h + bigSigma1 s.e + ch s.e s.f s.g + kw.1 + kw.2)
  let t2 := w32 (bigSigma0 s.a + maj s.a s.b s.c)
  ⟨w32 (t1 + t2), s.a, s.b, s.c, w32 (s.d + t1), s.e, s.f, s.g⟩

def compress (h : Hash8) (block : List Nat) : Hash8 :=
  let ws := sched ((chunks 4 block).map wordOfBytes)
  let s := (shaK.zip ws).foldl shaRound h
  ⟨w32 (h.a + s.a), w32 (h.b + s.b), w32 (h.c + s.c), w32 (h.d + s.d),
   w32 (h.e + s.e), w32 (h.f + s.f), w32 (h.g + s.g), w32 (h.h + s.h)⟩

def sha256bytes (msg : List Nat) : List Nat :=
  let h := ((chunks 64 (padMessage msg))).foldl compress shaH0
  beBytes h.a 4 ++ beBytes h.b 4 ++ beBytes h.c 4 ++ beBytes h.d 4 ++
  beBytes h.e 4 ++ beBytes h.f 4 ++ beBytes h.g 4 ++ beBytes h.h 4

def hexDigit (n : Nat) : Char :=
  if n < 10 then Char.ofNat (48 + n) else Char.ofNat (87 + n)

def byteHex (b : Nat) : List Char := [hexDigit (b / 16), hexDigit (b % 16)]

def hexEncode (bs : List Nat) : String :=
  ⟨bs.foldr (fun b acc => byteHex b ++ acc) []⟩

/-- The UTF-8 encoding of a character (Go `[]byte(string)`). -/
def charUtf8 (c : Char) : List Nat :=
  let n := c.toNat
  if n < 128 then [n]
  else if n < 2048 then [192 + n / 64, 128 + n % 64]
  else if n < 65536 then [224 + n / 4096, 128 + (n / 64) % 64, 128 + n % 64]
  else [240 + n / 262144, 128 + (n / 4096) % 64, 128 + (n / 64) % 64, 128 + n % 64]

def utf8Bytes (s : String) : List Nat :=
  s.data.foldr (fun c acc => charUtf8 c ++ acc) []

/-- Lowercase hex of the SHA-256 digest of the UTF-8 bytes of `s`
(Go `hex.EncodeToString(sha256.Sum256([]byte(s))[:])`). -/
def sha256hex (s : String) : String := hexEncode (sha256bytes (utf8Bytes s))

/-! ## Worktree base directory (`git.WorktreeBaseDir`) -/

/-- Function `git.WorktreeBaseDir`, as a function of the system temp directory and the
canonical (absolute, symlink-resolved) repository path: `filepath.Join` of
the temp dir with `"line-" + hex(sha256(path))[:8]` (the join is modelled as
`"/"`-concatenation). -/
def WorktreeBaseDir (tmpDir canonicalRepoPath : String) : String :=
  tmpDir ++ "/line-" ++ (sha256hex canonicalRepoPath).take 8

/-! ## Run lock (`internal/engine`, `AcquireRunLock`) -/

/-- Result of `engine.AcquireRunLock`: the non-blocking exclusive `flock`
either succeeds, or fails with the distinguished `errLockHeld` when another
process holds the lock. -/
inductive LockResult where
  | acquired
  | lockHeld
deriving DecidableEq, Repr

/-- Function `engine.AcquireRunLock` over the abstract lock state (`held` = another
process currently holds the flock on `.line/run.lock`): a non-blocking
exclusive flock fails exactly when the lock is held; a stale lock *file*
without a holder does not block acquisition. -/
def AcquireRunLock (held : Bool) : LockResult :=
  if held then .lockHeld else .acquired

/-! ## Engine state and event trace -/

/-- A commit, identified by its full message (subject = first line). -/
structure Commit where
  message : String
deriving DecidableEq, Repr

/-- Branches of the repository: an association list from branch name to the
branch's commits, tip first.  Only presence, tips appended by the engine and
creation contents matter to the claims; rebase rewrites are oracle-valued. -/
abbrev Branches := List (String × List Commit)

def lookupBranch (bs : Branches) (name : String) : Option (List Commit) :=
  match bs.find? (fun p => p.1 == name) with
  | some p => some p.2
  | none => none

def setBranch (bs : Branches) (name : String) (cs : List Commit) : Branches :=
  bs.map (fun p => if p.1 == name then (p.1, cs) else p)

def appendCommit (bs : Branches) (name : String) (c : Commit) : Branches :=
  bs.map (fun p => if p.1 == name then (p.1, c :: p.2) else p)

def lookupKey (l : List (String × Nat)) (k : String) : Option Nat :=
  match l.find? (fun p => p.1 == k) with
  | some p => some p.2
  | none => none

def removeKey (l : List (String × Nat)) (k : String) : List (String × Nat) :=
  l.filter (fun p => p.1 != k)

/-- Mutable state threaded through a run: the repository's branches and the
`.line/` state files (`run.pid`, `stations/<name>.pid`,
`stations/<name>.failed`). -/
structure St where
  branches : Branches
  runPid : Option Nat
  stationPids : List (String × Nat)
  stationFailed : List String
deriving Repr

/-- Side effects recorded in program order. -/
inductive Ev where
  | killStationAgent (station : String) (pid : Nat)
  | killRunner (pid : Nat)
  | writeRunPid (pid : Nat)
  | removeRunPid
  | acquireLock
  | createBranch (branch predecessor : String)
  | addWorktree (station branch : String)
  | rebase (station onto : String)
  | rebaseAbort (station : String)
  | resetHard (station target : String)
  | runAgent (station command : String)
  | writeStationPid (station : String) (pid : Nat)
  | removeStationPid (station : String)
  | writeStationFailed (station : String)
  | removeStationFailed (station : String)
  | commit (branch : String) (c : Commit)
  | removeWorktree (station : String)
deriving DecidableEq, Repr

/-- Events that create or advance a station output branch (branch creation,
a commit, or the branch-moving rebase / hard reset performed in the
station's worktree). -/
def Ev.mutatesBranch : Ev → Bool
  | .createBranch _ _ => true
  | .commit _ _ => true
  | .rebase _ _ => true
  | .resetHard _ _ => true
  | _ => false

/-- Oracle environment: read-only inputs of a run and the outcome of each
external call, per station name.  Error returns of `git`/`os` calls are
modelled by `Option`/`Bool` oracles; state-file writes are assumed to
succeed (their error paths only wrap `os.WriteFile`). -/
structure Env where
  lineRunning : Bool
  currentBranch : Option String
  lastSubject : Option String
  changedFiles : List String
  ignoreLoad : LoadOutcome
  alive : Nat → Bool
  selfPid : Nat
  baseDirOk : Bool
  createBranchOk : String → Bool
  worktreeAddOk : String → Bool
  rebaseOk : String → Bool
  rebaseResult : String → List Commit
  resetOk : String → Bool
  agentStartOk : String → Bool
  agentPid : String → Nat
  agentExitOk : String → Bool
  worktreeDirty : String → Bool
  commitOk : String → Bool

/-! ## State store (`internal/state/state.go`) -/

/-- Function `state.KillAllStationAgents`: for every `stations/<name>.pid` entry, kill
the agent's process group when the recorded PID is positive and alive, then
remove the PID file.  Returns the emitted events; the station PID list is
emptied by the caller's state update. -/
def killAllStationAgents (alive : Nat → Bool) (pids : List (String × Nat)) : List Ev :=
  (pids.map (fun sp =>
    (if 0 < sp.2 ∧ alive sp.2 then [Ev.killStationAgent sp.1 sp.2] else []) ++
    [Ev.removeStationPid sp.1])).flatten

/-! ## Pipeline driver guards (`runner.Run`, first section) -/

inductive Guard where
  | envRunning
  | wrongBranch
  | skipMarker
  | allIgnored
deriving DecidableEq, Repr

inductive GuardOutcome where
  | gerr
  | skip (g : Guard)
  | proceed
deriving DecidableEq, Repr

/-- The guard section at the top of `runner.Run`, transcribed in evaluation
order: the `LINE_RUNNING` environment guard, the current-branch guard
(a `git.CurrentBranch` error aborts with an error return), the skip-marker
guard on the last commit subject (a `git.LastCommitMessage` error aborts),
and the `.lineignore` guard (`git.DiffFiles` errors are ignored and yield an
empty change list; an `ignore.Load` error only logs a warning). -/
def checkGuards (e : Env) (cfg : Config) : GuardOutcome :=
  if e.lineRunning then .skip .envRunning
  else
    match e.currentBranch with
    | none => .gerr
    | some cb =>
      if cb ≠ cfg.settings.watches then .skip .wrongBranch
      else
        match e.lastSubject with
        | none => .gerr
        | some subj =>
          if SkipMarkers.any (fun m => containsSub subj m) then .skip .skipMarker
          else if !e.changedFiles.isEmpty &&
                  (match Load e.ignoreLoad with
                   | .error _ => false
                   | .ok m => m.AllIgnored e.changedFiles) then .skip .allIgnored
          else .proceed

/-! ## Station executor (`runner.runStation`) -/

/-- Result of one station execution: updated state, emitted events, and
whether the station returned without error. -/
structure StepRes where
  st : St
  trace : List Ev
  ok : Bool
deriving Repr

/-- The catch-up step of `runStation`: rebase the worktree's output branch
onto the predecessor; on rebase failure abort the rebase and hard-reset to
the predecessor; only a failing hard reset is an error.  The commits a
successful rebase leaves on the branch are oracle-valued
(`e.rebaseResult`); a hard reset moves the branch to the predecessor's tip. -/
def catchUp (e : Env) (bs : Branches) (sname bname pred : String) :
    Branches × List Ev × Bool :=
  if e.rebaseOk sname then
    (setBranch bs bname (e.rebaseResult sname), [Ev.rebase sname pred], true)
  else if e.resetOk sname then
    (setBranch bs bname ((lookupBranch bs pred).getD []),
     [Ev.rebase sname pred, Ev.rebaseAbort sname, Ev.resetHard sname pred], true)
  else
    (bs, [Ev.rebase sname pred, Ev.rebaseAbort sname, Ev.resetHard sname pred], false)

/-- The commit step of `runStation` (`git.CommitAll` in the worktree): stage
everything, unstage `.line/`, and commit with the station commit message
only when the worktree is dirty; a failing `git commit` is only logged. -/
def commitPhase (e : Env) (st : St) (sname bname : String) : St × List Ev :=
  if e.worktreeDirty sname then
    if e.commitOk sname then
      let c : Commit := { message := commitMessage sname }
      ({ st with branches := appendCommit st.branches bname c }, [Ev.commit bname c])
    else (st, [])
  else (st, [])

/-- The agent section of `runStation`: start the agent (its own process
group, `LINE_RUNNING=1`, `CLAUDECODE` scrubbed), write the station PID file,
wait, remove the PID file; a non-zero exit writes the failure marker and
fails the station; a zero exit removes the failure marker and commits. -/
def agentPhase (e : Env) (st : St) (sname bname command : String) : St × List Ev × Bool :=
  if !e.agentStartOk sname then (st, [], false)
  else
    let pid := e.agentPid sname
    let t0 := [Ev.runAgent sname command, Ev.writeStationPid sname pid,
               Ev.removeStationPid sname]
    let st1 := { st with stationPids := removeKey st.stationPids sname }
    if !e.agentExitOk sname then
      ({ st1 with stationFailed :=
           if sname ∈ st1.stationFailed then st1.stationFailed
           else sname :: st1.stationFailed },
       t0 ++ [Ev.writeStationFailed sname], false)
    else
      let st2 := { st1 with stationFailed := st1.stationFailed.filter (fun n => n ≠ sname) }
      let (st3, t3) := commitPhase e st2 sname bname
      (st3, t0 ++ [Ev.removeStationFailed sname] ++ t3, true)

/-- Modelled from the spec: `config.ResolveStation` is called by
`runStation` but its definition is not under `src/` (only the caller is);
per the spec (§3) a station's optional `command` + `args` override the
top-level `agent` defaults. -/
def ResolveStation (cfg : Config) (s : Station) : Station :=
  { s with
    command := if s.command = "" then cfg.agent.command else s.command
    args := if s.args.isEmpty then cfg.agent.args else s.args }

/-- The tail of `runner.runStation` after the ensure-branch step, over the
state `st1` (branch ensured) and the events `t1` emitted so far: compute the
worktree base dir and materialise the worktree (`MkdirAll` and `AddWorktree`
failures are merged into the `worktreeAddOk` oracle), catch up by
rebase-or-reset, run the agent; the worktree teardown `defer` emits
`removeWorktree` on every path reached after worktree creation. -/
def stationWork (e : Env) (cfg : Config) (s : Station) (predecessor : String)
    (st1 : St) (t1 : List Ev) : StepRes :=
  if !e.baseDirOk then { st := st1, trace := t1, ok := false }
  else if !e.worktreeAddOk s.name then { st := st1, trace := t1, ok := false }
  else
    let bname := StationBranchName s.name
    let t2 := t1 ++ [Ev.addWorktree s.name bname]
    let cu := catchUp e st1.branches s.name bname predecessor
    let st3 := { st1 with branches := cu.1 }
    if !cu.2.2 then
      { st := st3, trace := t2 ++ cu.2.1 ++ [Ev.removeWorktree s.name], ok := false }
    else
      let ap := agentPhase e st3 s.name bname (ResolveStation cfg s).command
      { st := ap.1, trace := t2 ++ cu.2.1 ++ ap.2.1 ++ [Ev.removeWorktree s.name],
        ok := ap.2.2 }

/-- Function `runner.runStation`: ensure the output branch exists (created at the
predecessor, copying its commits), then `stationWork`: worktree, catch-up,
agent, outcome classification, commit, teardown. -/
def runStation (e : Env) (cfg : Config) (s : Station) (predecessor : String)
    (st : St) : StepRes :=
  let bname := StationBranchName s.name
  let missing := (lookupBranch st.branches bname).isNone
  if missing && !e.createBranchOk bname then { st := st, trace := [], ok := false }
  else if missing then
    stationWork e cfg s predecessor
      { st with branches :=
          (bname, (lookupBranch st.branches predecessor).getD []) :: st.branches }
      [Ev.createBranch bname predecessor]
  else stationWork e cfg s predecessor st []

/-! ## Pipeline driver (`runner.Run`) -/

/-- The station loop of `runner.Run`: stations in declared order, the first
station's predecessor is the watched branch, each later station's
predecessor is the previous station's output branch; a failing station
breaks the loop. -/
def runStations (e : Env) (cfg : Config) : St → String → List Station → St × List Ev
  | st, _, [] => (st, [])
  | st, pred, s :: rest =>
    let r := runStation e cfg s pred st
    if r.ok then
      let res := runStations e cfg r.st (StationBranchName s.name) rest
      (res.1, r.trace ++ res.2)
    else (r.st, r.trace)

/-- The preemption step of `runner.Run`: read `.line/run.pid`; when the
recorded PID is positive and alive, kill every station agent (each in its
own process group) and then signal the old runner's process group. -/
def preemptPhase (e : Env) (st : St) : St × List Ev :=
  let pid := st.runPid.getD 0
  if 0 < pid ∧ e.alive pid then
    ({ st with stationPids := [] },
     killAllStationAgents e.alive st.stationPids ++ [Ev.killRunner pid])
  else (st, [])

/-- The body of `runner.Run` after the guards and preemption: write our own
PID, run the stations from the watched branch, remove the PID on exit (the
worktree base-dir cleanup and `worktree prune` touch no branch and are not
traced). -/
def pipelinePhase (e : Env) (cfg : Config) (st : St) : St × List Ev :=
  let st2 := { st with runPid := some e.selfPid }
  let res := runStations e cfg st2 cfg.settings.watches cfg.stations
  ({ res.1 with runPid := none },
   Ev.writeRunPid e.selfPid :: res.2 ++ [Ev.removeRunPid])

/-- Result of a full driver invocation: `outcome = ok` is a `nil` return and
therefore process exit code 0. -/
structure RunRes where
  st : St
  trace : List Ev
  outcome : Bool
  skipReason : Option Guard
deriving Repr

/-- Function `runner.Run`: guards, preemption, PID bookkeeping, station loop.  A
station failure breaks the loop but the run still returns `nil` (exit 0). -/
def Run (e : Env) (cfg : Config) (st : St) : RunRes :=
  match checkGuards e cfg with
  | .gerr => { st := st, trace := [], outcome := false, skipReason := none }
  | .skip g => { st := st, trace := [], outcome := true, skipReason := some g }
  | .proceed =>
    let p1 := preemptPhase e st
    let p2 := pipelinePhase e cfg p1.1
    { st := p2.1, trace := p1.2 ++ p2.2, outcome := true, skipReason := none }

/-! ## Claim-side guard specification (for the refinement claim C4) -/

/-- Claim wording for guard 4: at least one file changed in `HEAD~1..HEAD`
and every changed file matches the compiled `.lineignore` patterns (no
`.lineignore`, or a failed compile, matches nothing). -/
def allChangedIgnoredSpec (e : Env) : Bool :=
  match e.ignoreLoad with
  | .compiled p => !e.changedFiles.isEmpty && e.changedFiles.all p
  | _ => false

/-- Claim wording for C4: the four guards in the stated order, returning the
first that fires. -/
def firstGuardSpec (e : Env) (cfg : Config) (cb subj : String) : Option Guard :=
  if e.lineRunning then some .envRunning
  else if cb ≠ cfg.settings.watches then some .wrongBranch
  else if SkipMarkers.any (fun m => containsSub subj m) then some .skipMarker
  else if allChangedIgnoredSpec e then some .allIgnored
  else none

/-! ## Concrete fixtures used by the closed evidence theorems and witnesses -/

/-- An oracle environment in which every external call succeeds, the run is
on the watched branch `main`, and no prior run is alive. -/
def envAllOk : Env :=
  { lineRunning := false
    currentBranch := some "main"
    lastSubject := some "add code"
    changedFiles := ["code.go"]
    ignoreLoad := .absent
    alive := fun _ => false
    selfPid := 42
    baseDirOk := true
    createBranchOk := fun _ => true
    worktreeAddOk := fun _ => true
    rebaseOk := fun _ => true
    rebaseResult := fun _ => []
    resetOk := fun _ => true
    agentStartOk := fun _ => true
    agentPid := fun _ => 7
    agentExitOk := fun _ => true
    worktreeDirty := fun _ => true
    commitOk := fun _ => true }

def stationSec : Station :=
  { name := "security", watches := "main", prompt := "Review for security issues"
    command := "", args := [], preamble := "" }

/-- A configuration with a non-default `branch_prefix`. -/
def cfgSec : Config :=
  { agent := { command := "claude", args := [] }
    settings := { branchPrefix := "custom/", watches := "main" }
    stations := [stationSec]
    preamble := "" }

def st0 : St :=
  { branches := [("main", [{ message := "add code" }])]
    runPid := none
    stationPids := []
    stationFailed := [] }

/-- Default station used with `List.getD`. -/
def dfltStation : Station :=
  { name := "", watches := "", prompt := "", command := "", args := [], preamble := "" }

def cfgTwo : Config :=
  { agent := { command := "claude", args := [] }
    settings := { branchPrefix := "", watches := "master" }
    stations :=
      [{ stationSec with name := "review", watches := "user-written" },
       { stationSec with name := "cleanup", watches := "also-user-written" }]
    preamble := "" }

def envPre : Env :=
  { envAllOk with alive := fun n => n == 5 || n == 9 }

def stPre : St :=
  { st0 with runPid := some 5, stationPids := [("security", 9)] }

def envRebFail : Env :=
  { envAllOk with rebaseOk := fun _ => false }

def envAgentFail : Env :=
  { envAllOk with agentExitOk := fun _ => false }

def stationDown : Station := { stationSec with name := "docs" }

def stationX : Station :=
  { name := "x", watches := "main", prompt := "p", command := "", args := [],
    preamble := "" }

def cfgCustom : Config :=
  { agent := { command := "claude", args := [] }
    settings := { branchPrefix := "custom/", watches := "main" }
    stations := [stationX]
    preamble := "" }

/-! # Theorems -/

/-! ## Shared helper lemmas -/

theorem strAppend_data (a b : String) : (a ++ b).data = a.data ++ b.data := rfl

theorem strAppend_cancel_left (p a b : String) (h : p ++ a = p ++ b) : a = b := by
  have hd : p.data ++ a.data = p.data ++ b.data := by
    have := congrArg String.data h
    simpa [strAppend_data] using this
  have hab := List.append_cancel_left hd
  cases a; cases b; exact congrArg String.mk hab

theorem assignWatches_getD (w : String) (sts : List Station) (i : Nat)
    (h : i < sts.length) :
    ((assignWatches w sts).getD i dfltStation).watches =
      if i = 0 then w else (sts.getD (i - 1) dfltStation).name := by
  induction sts generalizing w i with
  | nil => simp at h
  | cons s rest ih =>
    cases i with
    | zero => simp [assignWatches]
    | succ n =>
      simp only [assignWatches, List.getD_cons_succ]
      have hn : n < rest.length := by simpa using h
      rw [ih s.name n hn]
      cases n with
      | zero => simp
      | succ m => simp

theorem assignWatches_map_watches (w : String) (f : Station → String)
    (sts : List Station) :
    assignWatches w (sts.map (fun s => { s with watches := f s })) =
      assignWatches w sts := by
  induction sts generalizing w with
  | nil => rfl
  | cons s rest ih => simp [assignWatches, ih]

/-! ## C9 — the `.lineignore` all-ignored check -/

/-- C9: `AllIgnored` returns `true` iff the changed-file list is non-empty
and every changed file matches the compiled patterns; when no `.lineignore`
exists, `Load` yields the nil matcher which matches nothing, so the check is
`false` on every file list. -/
theorem allIgnored_characterisation :
    (∀ (p : String → Bool) (files : List String),
      Matcher.AllIgnored { gi := some p } files = true ↔
        files ≠ [] ∧ ∀ f ∈ files, p f = true)
    ∧ Load LoadOutcome.absent = Except.ok { gi := none }
    ∧ (∀ files : List String, Matcher.AllIgnored { gi := none } files = false) := by
  refine ⟨fun p files => ?_, rfl, fun _ => rfl⟩
  by_cases hf : files = []
  · subst hf; simp [Matcher.AllIgnored]
  · simp [Matcher.AllIgnored, List.length_eq_zero, hf, List.all_eq_true]

/-- C9 witness. -/
theorem allIgnored_characterisation_witness :
    Matcher.AllIgnored { gi := some (fun _ => true) } ["a.go"] = true :=
  (allIgnored_characterisation.1 (fun _ => true) ["a.go"]).2
    ⟨by simp, by simp⟩

/-! ## C10 — positional `watches` assignment in `config.parse` -/

/-- C10: `parse` assigns every station's `watches` purely by position —
station 0 receives the (defaulted) `settings.watches` and station `i > 0`
receives station `i-1`'s name — and the result is independent of whatever
`watches` values the stations carried in the input YAML. -/
theorem parse_watches_positional (cfg : Config) :
    (∀ i, i < cfg.stations.length →
      ((parse cfg).stations.getD i dfltStation).watches =
        if i = 0 then (parse cfg).settings.watches
        else (cfg.stations.getD (i - 1) dfltStation).name)
    ∧ (∀ f : Station → String,
        parse { cfg with stations :=
                  cfg.stations.map (fun s => { s with watches := f s }) }
          = parse cfg) := by
  constructor
  · intro i h
    simp only [parse]
    exact assignWatches_getD _ cfg.stations i h
  · intro f
    simp [parse, assignWatches_map_watches]


/-- C10 witness. -/
theorem parse_watches_positional_witness :
    ((parse cfgTwo).stations.getD 1 dfltStation).watches = "review"
    ∧ ((parse cfgTwo).stations.getD 0 dfltStation).watches = "master" := by
  have h1 := (parse_watches_positional cfgTwo).1 1 (by decide)
  have h0 := (parse_watches_positional cfgTwo).1 0 (by decide)
  constructor
  · rw [h1]; decide
  · rw [h0]; decide

/-! ## C8 — deterministic worktree base directory -/

set_option maxRecDepth 8192 in
/-- The embedded SHA-256 agrees with the FIPS 180-4 test vector for `"abc"`
(sanity anchor for `sha256hex`). -/
theorem sha256hex_abc :
    sha256hex "abc"
      = "ba7816bf8f01cfea414140de5dae2223b00361a396177a9cb410ff61f20015ad" := by
  decide

/-- C8: the worktree base directory is the temp dir joined with `"line-"`
plus the first 8 hex characters of the SHA-256 of the canonical repository
path; as a pure function it is identical for identical canonical paths, and
two repositories can share a base path only by colliding on those 8 hex
characters. -/
theorem worktreeBaseDir_pure (tmp p q : String) :
    WorktreeBaseDir tmp p = tmp ++ "/line-" ++ (sha256hex p).take 8
    ∧ (p = q → WorktreeBaseDir tmp p = WorktreeBaseDir tmp q)
    ∧ (WorktreeBaseDir tmp p = WorktreeBaseDir tmp q →
        (sha256hex p).take 8 = (sha256hex q).take 8) := by
  refine ⟨rfl, fun h => by rw [h], fun h => ?_⟩
  exact strAppend_cancel_left (tmp ++ "/line-") _ _ h

/-- C8 witness. -/
theorem worktreeBaseDir_pure_witness :
    WorktreeBaseDir "/tmp" "/home/user/repo" = WorktreeBaseDir "/tmp" "/home/user/repo"
    ∧ (sha256hex "/home/user/repo").take 8 = (sha256hex "/home/user/repo").take 8 :=
  ⟨(worktreeBaseDir_pure "/tmp" "/home/user/repo" "/home/user/repo").2.1 rfl,
   (worktreeBaseDir_pure "/tmp" "/home/user/repo" "/home/user/repo").2.2
     ((worktreeBaseDir_pure "/tmp" "/home/user/repo" "/home/user/repo").2.1 rfl)⟩

/-! ## C1 — engine-authored commit format (code/spec divergence evidence) -/

/-- C1 evidence: in a concrete run in which the `security` station's agent
exits zero with a dirty worktree, the commit the station runner creates
carries the `[skip line]` marker but *no* `Triggered-By:` trailer, while the
older concern engine's `commitChanges` message carries the `Triggered-By:`
trailer but no skip marker anywhere (subject or body).  No code path under
`src/` produces a commit with both. -/
theorem runner_commit_no_trailer :
    Ev.commit "line/stn/security" { message := commitMessage "security" }
        ∈ (runStation envAllOk cfgSec stationSec "main" st0).trace
    ∧ commitMessage "security" = "assembly-line: station security [skip line]"
    ∧ containsSub (commitMessage "security") commitSkipMarker = true
    ∧ containsSub (commitMessage "security") "Triggered-By:" = false
    ∧ containsSub (engineCommitMessage "security" "abc123") "Triggered-By:" = true
    ∧ engineCommitMessage "security" "abc123"
        = "[SECURITY] Agent changes\n\nTriggered-By: abc123"
    ∧ SkipMarkers.all
        (fun m => !containsSub (engineCommitMessage "security" "abc123") m) = true := by
  refine ⟨?_, by decide, by decide, by decide, by decide, by decide, by decide⟩
  decide

/-! ## C4 — guard evaluation order and effect-free skips -/

/-- The `.lineignore` guard computed by `runner.Run` coincides with the
claim's wording (guard 4 of `firstGuardSpec`). -/
theorem guard4_eq (e : Env) :
    (!e.changedFiles.isEmpty &&
      (match Load e.ignoreLoad with
       | .error _ => false
       | .ok m => m.AllIgnored e.changedFiles)) = allChangedIgnoredSpec e := by
  cases hl : e.ignoreLoad with
  | absent =>
    simp [Load, Matcher.AllIgnored, allChangedIgnoredSpec, hl]
  | compiled p =>
    simp only [Load, Matcher.AllIgnored, allChangedIgnoredSpec, hl]
    cases hf : e.changedFiles with
    | nil => simp
    | cons a l => simp
  | failed =>
    simp [Load, allChangedIgnoredSpec, hl]

/-- C4: `runner.Run` evaluates the four guards in the claimed order —
`LINE_RUNNING=1`, wrong branch, skip marker in the last commit subject,
all changed files ignored — the skip reason is exactly the first guard that
fires, and a fired guard causes a clean exit (`nil` return, exit 0) with an
empty effect trace and the state (branches, `.line/` files) untouched. -/
theorem run_guard_order (e : Env) (cfg : Config) (st : St) (cb subj : String)
    (hcb : e.currentBranch = some cb) (hsubj : e.lastSubject = some subj) :
    (Run e cfg st).skipReason = firstGuardSpec e cfg cb subj
    ∧ ((Run e cfg st).skipReason.isSome →
        (Run e cfg st).outcome = true
        ∧ (Run e cfg st).trace = []
        ∧ (Run e cfg st).st = st) := by
  have hg : checkGuards e cfg =
      (match firstGuardSpec e cfg cb subj with
       | some g => GuardOutcome.skip g
       | none => GuardOutcome.proceed) := by
    simp only [checkGuards, firstGuardSpec, hcb, hsubj, guard4_eq]
    by_cases h1 : e.lineRunning
    · simp [h1]
    · by_cases h2 : cb ≠ cfg.settings.watches
      · simp [h1, h2]
      · by_cases h3 : SkipMarkers.any (fun m => containsSub subj m)
        · simp [h1, h2, h3]
        · by_cases h4 : allChangedIgnoredSpec e
          · simp [h1, h2, h3, h4]
          · simp [h1, h2, h3, h4]
  cases hspec : firstGuardSpec e cfg cb subj with
  | none =>
    rw [hspec] at hg
    constructor
    · simp [Run, hg, hspec]
    · intro hs
      simp [Run, hg] at hs
  | some g =>
    rw [hspec] at hg
    constructor
    · simp [Run, hg, hspec]
    · intro _
      simp [Run, hg]

/-- C4 witness: with `LINE_RUNNING=1` the first guard fires and the run is
effect-free. -/
theorem run_guard_order_witness :
    (Run { envAllOk with lineRunning := true } cfgSec st0).trace = []
    ∧ (Run { envAllOk with lineRunning := true } cfgSec st0).skipReason
        = some Guard.envRunning := by
  have h := run_guard_order { envAllOk with lineRunning := true } cfgSec st0
    "main" "add code" rfl rfl
  exact ⟨(h.2 (by rw [h.1]; decide)).2.1, by rw [h.1]; decide⟩

/-! ## Kill / preemption lemmas and C3 -/

theorem killAll_cons (alive : Nat → Bool) (sp : String × Nat)
    (rest : List (String × Nat)) :
    killAllStationAgents alive (sp :: rest)
      = ((if 0 < sp.2 ∧ alive sp.2 then [Ev.killStationAgent sp.1 sp.2] else []) ++
          [Ev.removeStationPid sp.1]) ++ killAllStationAgents alive rest := by
  simp [killAllStationAgents]

theorem killAll_mem (alive : Nat → Bool) (pids : List (String × Nat))
    (s : String) (q : Nat) (hmem : (s, q) ∈ pids) (hq : 0 < q)
    (ha : alive q = true) :
    Ev.killStationAgent s q ∈ killAllStationAgents alive pids := by
  induction pids with
  | nil => simp at hmem
  | cons sp rest ih =>
    rw [killAll_cons]
    rcases List.mem_cons.mp hmem with h | h
    · cases h
      apply List.mem_append_left
      apply List.mem_append_left
      rw [if_pos ⟨hq, ha⟩]
      exact List.mem_singleton.mpr rfl
    · exact List.mem_append_right _ (ih h)

theorem killAll_shape (alive : Nat → Bool) (pids : List (String × Nat))
    (ev : Ev) (hmem : ev ∈ killAllStationAgents alive pids) :
    (∃ s q, ev = Ev.killStationAgent s q) ∨ (∃ s, ev = Ev.removeStationPid s) := by
  induction pids with
  | nil => simp [killAllStationAgents] at hmem
  | cons sp rest ih =>
    rw [killAll_cons] at hmem
    rcases List.mem_append.mp hmem with h | h
    · rcases List.mem_append.mp h with h' | h'
      · by_cases hc : 0 < sp.2 ∧ alive sp.2 = true
        · rw [if_pos hc] at h'
          exact Or.inl ⟨sp.1, sp.2, List.mem_singleton.mp h'⟩
        · rw [if_neg hc] at h'
          simp at h'
      · exact Or.inr ⟨sp.1, List.mem_singleton.mp h'⟩
    · exact ih h

theorem killAll_not_mut (alive : Nat → Bool) (pids : List (String × Nat))
    (ev : Ev) (hmem : ev ∈ killAllStationAgents alive pids) :
    ev.mutatesBranch = false := by
  rcases killAll_shape alive pids ev hmem with ⟨s, q, rfl⟩ | ⟨s, rfl⟩ <;> rfl

theorem killAll_no_agent (alive : Nat → Bool) (pids : List (String × Nat))
    (n c : String) (hmem : Ev.runAgent n c ∈ killAllStationAgents alive pids) :
    False := by
  rcases killAll_shape alive pids _ hmem with ⟨s, q, h⟩ | ⟨s, h⟩ <;> simp at h

theorem preemptPhase_trace (e : Env) (st : St) (p : Nat)
    (hpid : st.runPid = some p) (hpos : 0 < p) (halive : e.alive p = true) :
    (preemptPhase e st).2
      = killAllStationAgents e.alive st.stationPids ++ [Ev.killRunner p] := by
  simp [preemptPhase, hpid, hpos, halive]

/-- C3: when a run that passed the guards preempts a live prior run (the
PID in `.line/run.pid` is positive and alive), its effect trace starts with
the station-agent kills — one `killStationAgent` per recorded, alive agent
PID, each signalled in its own process group — followed by the
`killRunner` signal to the old runner's process group, and only after that
(in `rest`) can any branch-mutating event occur: every event up to and
including `killRunner` is branch-neutral. -/
theorem preemption_kill_order (e : Env) (cfg : Config) (st : St) (p : Nat)
    (hg : checkGuards e cfg = GuardOutcome.proceed)
    (hpid : st.runPid = some p) (hpos : 0 < p) (halive : e.alive p = true) :
    ∃ rest, (Run e cfg st).trace
        = killAllStationAgents e.alive st.stationPids ++ Ev.killRunner p :: rest
      ∧ (∀ s q, (s, q) ∈ st.stationPids → 0 < q → e.alive q = true →
          Ev.killStationAgent s q ∈ killAllStationAgents e.alive st.stationPids)
      ∧ (∀ ev ∈ killAllStationAgents e.alive st.stationPids,
          ev.mutatesBranch = false)
      ∧ (Ev.killRunner p).mutatesBranch = false := by
  refine ⟨(pipelinePhase e cfg ((preemptPhase e st).1)).2, ?_,
    fun s q hm hq ha => killAll_mem e.alive st.stationPids s q hm hq ha,
    fun ev hm => killAll_not_mut e.alive st.stationPids ev hm, rfl⟩
  have htr : (Run e cfg st).trace
      = (preemptPhase e st).2 ++ (pipelinePhase e cfg ((preemptPhase e st).1)).2 := by
    simp [Run, hg]
  rw [htr, preemptPhase_trace e st p hpid hpos halive, List.append_assoc]
  rfl



/-- C3 witness. -/
theorem preemption_kill_order_witness :
    Ev.killStationAgent "security" 9
      ∈ killAllStationAgents envPre.alive stPre.stationPids := by
  obtain ⟨rest, h1, h2, h3, h4⟩ :=
    preemption_kill_order envPre cfgSec stPre 5 (by decide) rfl (by decide) (by decide)
  exact h2 "security" 9 (by decide) (by decide) (by decide)

/-! ## Branch/state lookup helper lemmas -/

theorem lookupBranch_cons_ne {b b' : String} (h : b' ≠ b) (cs : List Commit)
    (bs : Branches) : lookupBranch ((b, cs) :: bs) b' = lookupBranch bs b' := by
  have hf : (b == b') = false := by simp [Ne.symm h]
  simp [lookupBranch, List.find?, hf]

theorem lookupBranch_map_ne {b b' : String} (h : b' ≠ b)
    (g : String × List Commit → List Commit) (bs : Branches) :
    lookupBranch (bs.map (fun p => if p.1 == b then (p.1, g p) else p)) b'
      = lookupBranch bs b' := by
  induction bs with
  | nil => rfl
  | cons pq rest ih =>
    simp only [List.map_cons]
    by_cases hq : (pq.1 == b)
    · have h1 : pq.1 = b := by simpa using hq
      have hne : (pq.1 == b') = false := by simp [h1, Ne.symm h]
      simp only [hq, if_true, lookupBranch, List.find?, hne] at ih ⊢
      exact ih
    · by_cases hb' : (pq.1 == b')
      · simp only [hq, if_false, Bool.false_eq_true, lookupBranch, List.find?, hb']
      · simp only [hq, if_false, Bool.false_eq_true, lookupBranch, List.find?, hb'] at ih ⊢
        exact ih

theorem lookupBranch_setBranch_ne {b b' : String} (h : b' ≠ b) (cs : List Commit)
    (bs : Branches) : lookupBranch (setBranch bs b cs) b' = lookupBranch bs b' :=
  lookupBranch_map_ne h (fun _ => cs) bs

theorem lookupBranch_appendCommit_ne {b b' : String} (h : b' ≠ b) (c : Commit)
    (bs : Branches) : lookupBranch (appendCommit bs b c) b' = lookupBranch bs b' :=
  lookupBranch_map_ne h (fun p => c :: p.2) bs

theorem lookupKey_removeKey (l : List (String × Nat)) (k : String) :
    lookupKey (removeKey l k) k = none := by
  induction l with
  | nil => rfl
  | cons p rest ih =>
    by_cases hp : (p.1 == k)
    · have hbe : (p.1 != k) = false := by simp [bne, hp]
      simpa [removeKey, List.filter_cons, hbe] using ih
    · have hbe : (p.1 != k) = true := by simp [bne, hp]
      simpa [removeKey, List.filter_cons, hbe, lookupKey, List.find?_cons, hp]
        using ih

theorem commitPhase_fst_stationFailed (e : Env) (st : St) (sname bname : String) :
    (commitPhase e st sname bname).1.stationFailed = st.stationFailed := by
  simp only [commitPhase]
  split
  · split <;> rfl
  · rfl

theorem commitPhase_fst_stationPids (e : Env) (st : St) (sname bname : String) :
    (commitPhase e st sname bname).1.stationPids = st.stationPids := by
  simp only [commitPhase]
  split
  · split <;> rfl
  · rfl

theorem commitPhase_trace_shape (e : Env) (st : St) (sname bname : String) :
    (commitPhase e st sname bname).2 = []
    ∨ (commitPhase e st sname bname).2
        = [Ev.commit bname { message := commitMessage sname }] := by
  simp only [commitPhase]
  split
  · split
    · exact Or.inr rfl
    · exact Or.inl rfl
  · exact Or.inl rfl

/-! ## C2 — the present driver never acquires the run lock -/

theorem catchUp_no_lock (e : Env) (bs : Branches) (sname bname pred : String) :
    Ev.acquireLock ∉ (catchUp e bs sname bname pred).2.1 := by
  by_cases hreb : e.rebaseOk sname
  · simp [catchUp, hreb]
  · by_cases hres : e.resetOk sname <;> simp [catchUp, hreb, hres]

theorem commitPhase_no_lock (e : Env) (st : St) (sname bname : String) :
    Ev.acquireLock ∉ (commitPhase e st sname bname).2 := by
  rcases commitPhase_trace_shape e st sname bname with h | h <;> simp [h]

theorem agentPhase_no_lock (e : Env) (st : St) (sname bname cmd : String) :
    Ev.acquireLock ∉ (agentPhase e st sname bname cmd).2.1 := by
  by_cases hstart : e.agentStartOk sname
  · by_cases hexit : e.agentExitOk sname
    · intro hmem
      simp only [agentPhase, hstart, Bool.not_true, Bool.false_eq_true, if_false,
        hexit] at hmem
      rcases List.mem_append.mp hmem with h | h
      · rcases List.mem_append.mp h with h' | h'
        · simp at h'
        · simp at h'
      · exact commitPhase_no_lock e _ sname bname h
    · simp [agentPhase, hstart, hexit]
  · simp [agentPhase, hstart]

theorem stationWork_no_lock (e : Env) (cfg : Config) (s : Station) (pred : String)
    (st1 : St) (t1 : List Ev) (h1 : Ev.acquireLock ∉ t1) :
    Ev.acquireLock ∉ (stationWork e cfg s pred st1 t1).trace := by
  by_cases hbd : e.baseDirOk
  · by_cases hwt : e.worktreeAddOk s.name
    · by_cases hok : (catchUp e st1.branches s.name (StationBranchName s.name) pred).2.2
      · intro hmem
        simp only [stationWork, hbd, Bool.not_true, Bool.false_eq_true, if_false,
          hwt, hok, if_true] at hmem
        rcases List.mem_append.mp hmem with h | h
        · rcases List.mem_append.mp h with h' | h'
          · rcases List.mem_append.mp h' with h'' | h''
            · rcases List.mem_append.mp h'' with h3 | h3
              · exact h1 h3
              · simp at h3
            · exact catchUp_no_lock e st1.branches s.name _ pred h''
          · exact agentPhase_no_lock e _ s.name _ _ h'
        · simp at h
      · intro hmem
        simp only [stationWork, hbd, Bool.not_true, Bool.false_eq_true, if_false,
          hwt, hok, Bool.not_false, if_true] at hmem
        rcases List.mem_append.mp hmem with h | h
        · rcases List.mem_append.mp h with h' | h'
          · rcases List.mem_append.mp h' with h'' | h''
            · exact h1 h''
            · simp at h''
          · exact catchUp_no_lock e st1.branches s.name _ pred h'
        · simp at h
    · simpa [stationWork, hbd, hwt] using h1
  · simpa [stationWork, hbd] using h1

theorem runStation_no_lock (e : Env) (cfg : Config) (s : Station) (pred : String)
    (st : St) : Ev.acquireLock ∉ (runStation e cfg s pred st).trace := by
  by_cases hm : (lookupBranch st.branches (StationBranchName s.name)).isNone
  · by_cases hco : e.createBranchOk (StationBranchName s.name)
    · simp only [runStation, hm, hco, Bool.not_true, Bool.and_false,
        Bool.false_eq_true, if_false, if_true]
      exact stationWork_no_lock e cfg s pred _ _ (by simp)
    · simp [runStation, hm, hco]
  · simp only [runStation, hm, Bool.false_and, Bool.false_eq_true, if_false]
    exact stationWork_no_lock e cfg s pred st [] (by simp)

theorem runStations_no_lock (e : Env) (cfg : Config) (sts : List Station) :
    ∀ (st : St) (pred : String),
      Ev.acquireLock ∉ (runStations e cfg st pred sts).2 := by
  induction sts with
  | nil => intro st pred; simp [runStations]
  | cons s rest ih =>
    intro st pred
    simp only [runStations]
    by_cases hok : (runStation e cfg s pred st).ok = true
    · rw [if_pos hok]
      intro hmem
      rcases List.mem_append.mp hmem with h | h
      · exact runStation_no_lock e cfg s pred st h
      · exact ih _ _ h
    · rw [if_neg hok]
      exact runStation_no_lock e cfg s pred st

theorem run_no_lock_trace (e : Env) (cfg : Config) (st : St) :
    Ev.acquireLock ∉ (Run e cfg st).trace := by
  cases hg : checkGuards e cfg with
  | gerr => simp [Run, hg]
  | skip g => simp [Run, hg]
  | proceed =>
    simp only [Run, hg]
    intro hmem
    rcases List.mem_append.mp hmem with h | h
    · simp only [preemptPhase] at h
      split at h
      · rcases List.mem_append.mp h with h' | h'
        · rcases killAll_shape e.alive st.stationPids _ h' with ⟨a, b, hh⟩ | ⟨a, hh⟩ <;>
            simp at hh
        · simp at h'
      · simp at h
    · simp only [pipelinePhase] at h
      rcases List.mem_cons.mp h with h' | h'
      · simp at h'
      · rcases List.mem_append.mp h' with h'' | h''
        · exact runStations_no_lock e cfg cfg.stations _ _ h''
        · simp at h''

/-- C2 evidence: the driver present under `src/` — `runner.Run`, wired to
`line run` — never acquires the run lock: no invocation's effect trace
contains an `acquireLock` event, although `engine.AcquireRunLock` (which no
driver under `src/` calls) implements the non-blocking exclusive flock,
failing with the distinguishable lock-held error exactly when the lock is
held.  A concrete guard-passing invocation proceeds to run the station and
to commit on its output branch regardless; with a concurrent sibling
holding `.line/run.lock`, stations run and branches move anyway, contrary
to the claim. -/
theorem run_never_acquires_lock :
    (∀ (e : Env) (cfg : Config) (st : St), Ev.acquireLock ∉ (Run e cfg st).trace)
    ∧ AcquireRunLock true = LockResult.lockHeld
    ∧ AcquireRunLock false = LockResult.acquired
    ∧ (Run envAllOk cfgSec st0).outcome = true
    ∧ Ev.runAgent "security" "claude" ∈ (Run envAllOk cfgSec st0).trace
    ∧ Ev.commit "line/stn/security" { message := commitMessage "security" }
        ∈ (Run envAllOk cfgSec st0).trace :=
  ⟨run_no_lock_trace, rfl, rfl, by decide, by decide, by decide⟩

/-! ## C6 — rebase failure policy -/

/-- C6: when catching a station up fails at the rebase, the executor aborts
the rebase and hard-resets the worktree to the predecessor and the station
continues — the agent is still invoked and no failure marker is written for
the rebase conflict — while a failure of the hard reset itself (and only
that) fails the station before the agent runs, again without a failure
marker. -/
theorem rebase_conflict_policy (e : Env) (cfg : Config) (s : Station)
    (pred : String) (st : St)
    (hcb : e.createBranchOk (StationBranchName s.name) = true)
    (hbd : e.baseDirOk = true)
    (hwt : e.worktreeAddOk s.name = true)
    (hreb : e.rebaseOk s.name = false) :
    (e.resetOk s.name = true →
      Ev.rebaseAbort s.name ∈ (runStation e cfg s pred st).trace
      ∧ Ev.resetHard s.name pred ∈ (runStation e cfg s pred st).trace
      ∧ (e.agentStartOk s.name = true →
          Ev.runAgent s.name (ResolveStation cfg s).command
            ∈ (runStation e cfg s pred st).trace)
      ∧ (e.agentStartOk s.name = true → e.agentExitOk s.name = true →
          (runStation e cfg s pred st).ok = true
          ∧ s.name ∉ (runStation e cfg s pred st).st.stationFailed))
    ∧ (e.resetOk s.name = false →
      (runStation e cfg s pred st).ok = false
      ∧ (∀ c, Ev.runAgent s.name c ∉ (runStation e cfg s pred st).trace)
      ∧ Ev.writeStationFailed s.name ∉ (runStation e cfg s pred st).trace
      ∧ (runStation e cfg s pred st).st.stationFailed = st.stationFailed) := by
  constructor
  · intro hres
    refine ⟨?_, ?_, ?_, ?_⟩
    · by_cases hm : (lookupBranch st.branches (StationBranchName s.name)).isNone <;>
        simp [runStation, stationWork, catchUp, hm, hcb, hbd, hwt, hreb, hres]
    · by_cases hm : (lookupBranch st.branches (StationBranchName s.name)).isNone <;>
        simp [runStation, stationWork, catchUp, hm, hcb, hbd, hwt, hreb, hres]
    · intro hstart
      by_cases hm : (lookupBranch st.branches (StationBranchName s.name)).isNone <;>
        by_cases hexit : e.agentExitOk s.name <;>
          simp [runStation, stationWork, catchUp, agentPhase, hm, hcb, hbd, hwt, hreb, hres,
            hstart, hexit]
    · intro hstart hexit
      constructor
      · by_cases hm : (lookupBranch st.branches (StationBranchName s.name)).isNone <;>
          simp [runStation, stationWork, catchUp, agentPhase, hm, hcb, hbd, hwt, hreb, hres,
            hstart, hexit]
      · by_cases hm : (lookupBranch st.branches (StationBranchName s.name)).isNone <;>
          simp [runStation, stationWork, catchUp, agentPhase, hm, hcb, hbd, hwt, hreb, hres,
            hstart, hexit, commitPhase_fst_stationFailed, List.mem_filter]
  · intro hres
    refine ⟨?_, fun c => ?_, ?_, ?_⟩ <;>
      by_cases hm : (lookupBranch st.branches (StationBranchName s.name)).isNone <;>
        simp [runStation, stationWork, catchUp, hm, hcb, hbd, hwt, hreb, hres]


/-- C6 witness. -/
theorem rebase_conflict_policy_witness :
    Ev.resetHard "security" "main"
      ∈ (runStation envRebFail cfgSec stationSec "main" st0).trace
    ∧ (runStation envRebFail cfgSec stationSec "main" st0).ok = true := by
  have h := rebase_conflict_policy envRebFail cfgSec stationSec "main" st0
    rfl rfl rfl rfl
  exact ⟨(h.1 rfl).2.1, ((h.1 rfl).2.2.2 rfl rfl).1⟩

/-! ## Failure-marker persistence lemmas (for C5) -/

theorem agentPhase_failed_persists (e : Env) (st : St) (sname bname cmd name : String)
    (hname : name ∈ st.stationFailed)
    (hnot : name ∉ (agentPhase e st sname bname cmd).1.stationFailed) :
    name = sname ∧ e.agentExitOk sname = true
    ∧ Ev.removeStationFailed sname ∈ (agentPhase e st sname bname cmd).2.1 := by
  by_cases hstart : e.agentStartOk sname
  · by_cases hexit : e.agentExitOk sname
    · refine ⟨?_, hexit, ?_⟩
      · simp only [agentPhase, hstart, Bool.not_true, Bool.false_eq_true, if_false,
          hexit, commitPhase_fst_stationFailed, List.mem_filter] at hnot
        by_contra hne
        exact hnot ⟨hname, by simpa using hne⟩
      · simp [agentPhase, hstart, hexit]
    · exfalso
      simp only [agentPhase, hstart, Bool.not_true, Bool.false_eq_true, if_false,
        hexit, Bool.not_false, if_true] at hnot
      by_cases hin : sname ∈ st.stationFailed
      · rw [if_pos hin] at hnot
        exact hnot hname
      · rw [if_neg hin] at hnot
        exact hnot (List.mem_cons_of_mem _ hname)
  · exfalso
    simp only [agentPhase, hstart, Bool.not_false, if_true] at hnot
    exact hnot hname

theorem stationWork_failed_persists (e : Env) (cfg : Config) (s : Station)
    (pred : String) (st1 : St) (t1 : List Ev) (name : String)
    (hname : name ∈ st1.stationFailed)
    (hnot : name ∉ (stationWork e cfg s pred st1 t1).st.stationFailed) :
    name = s.name ∧ e.agentExitOk s.name = true
    ∧ Ev.removeStationFailed s.name ∈ (stationWork e cfg s pred st1 t1).trace := by
  by_cases hbd : e.baseDirOk
  · by_cases hwt : e.worktreeAddOk s.name
    · by_cases hcu : (catchUp e st1.branches s.name (StationBranchName s.name) pred).2.2
      · have hst3 : ({ st1 with
            branches := (catchUp e st1.branches s.name
              (StationBranchName s.name) pred).1 } : St).stationFailed
            = st1.stationFailed := rfl
        simp only [stationWork, hbd, Bool.not_true, Bool.false_eq_true, if_false,
          hwt, hcu, if_true] at hnot ⊢
        have h := agentPhase_failed_persists e _ s.name (StationBranchName s.name)
          (ResolveStation cfg s).command name (by rw [hst3]; exact hname) hnot
        exact ⟨h.1, h.2.1, by simp [List.mem_append, h.2.2]⟩
      · exfalso
        simp only [stationWork, hbd, Bool.not_true, Bool.false_eq_true, if_false,
          hwt, hcu, Bool.not_false, if_true] at hnot
        exact hnot hname
    · exfalso
      simp only [stationWork, hbd, Bool.not_true, Bool.false_eq_true, if_false,
        hwt, Bool.not_false, if_true] at hnot
      exact hnot hname
  · exfalso
    simp only [stationWork, hbd, Bool.not_false, if_true] at hnot
    exact hnot hname

theorem runStation_failed_persists (e : Env) (cfg : Config) (s : Station)
    (pred : String) (st : St) (name : String)
    (hname : name ∈ st.stationFailed)
    (hnot : name ∉ (runStation e cfg s pred st).st.stationFailed) :
    name = s.name ∧ e.agentExitOk s.name = true
    ∧ Ev.removeStationFailed s.name ∈ (runStation e cfg s pred st).trace := by
  by_cases hm : (lookupBranch st.branches (StationBranchName s.name)).isNone
  · by_cases hco : e.createBranchOk (StationBranchName s.name)
    · simp only [runStation, hm, hco, Bool.not_true, Bool.and_false,
        Bool.false_eq_true, if_false, if_true] at hnot ⊢
      exact stationWork_failed_persists e cfg s pred _ _ name hname hnot
    · exfalso
      simp only [runStation, hm, hco, Bool.not_false, Bool.and_true, if_true] at hnot
      exact hnot hname
  · simp only [runStation, hm, Bool.false_and, Bool.false_eq_true, if_false] at hnot ⊢
    exact stationWork_failed_persists e cfg s pred st [] name hname hnot

theorem runStations_failed_persists (e : Env) (cfg : Config) (sts : List Station) :
    ∀ (st : St) (pred name : String),
      name ∈ st.stationFailed →
      name ∉ (runStations e cfg st pred sts).1.stationFailed →
      Ev.removeStationFailed name ∈ (runStations e cfg st pred sts).2
      ∧ e.agentExitOk name = true := by
  induction sts with
  | nil =>
    intro st pred name hname hnot
    exact absurd hname hnot
  | cons s rest ih =>
    intro st pred name hname hnot
    simp only [runStations] at hnot ⊢
    by_cases hok : (runStation e cfg s pred st).ok = true
    · rw [if_pos hok] at hnot ⊢
      by_cases hmem : name ∈ (runStation e cfg s pred st).st.stationFailed
      · have h := ih (runStation e cfg s pred st).st (StationBranchName s.name)
          name hmem hnot
        exact ⟨List.mem_append_right _ h.1, h.2⟩
      · have h := runStation_failed_persists e cfg s pred st name hname hmem
        refine ⟨List.mem_append_left _ ?_, ?_⟩
        · rw [h.1]; exact h.2.2
        · rw [h.1]; exact h.2.1
    · rw [if_neg hok] at hnot ⊢
      have h := runStation_failed_persists e cfg s pred st name hname hnot
      exact ⟨by rw [h.1]; exact h.2.2, by rw [h.1]; exact h.2.1⟩

/-! ## Branch-untouched lemmas (for C5 and C7) -/

theorem commitPhase_branches_other (e : Env) (st : St) (sname bname b : String)
    (hb : b ≠ bname) (hnone : lookupBranch st.branches b = none) :
    lookupBranch (commitPhase e st sname bname).1.branches b = none := by
  by_cases hd : e.worktreeDirty sname
  · by_cases hco : e.commitOk sname
    · simpa [commitPhase, hd, hco, lookupBranch_appendCommit_ne hb] using hnone
    · simpa [commitPhase, hd, hco] using hnone
  · simpa [commitPhase, hd] using hnone

theorem agentPhase_branches_other (e : Env) (st : St) (sname bname cmd b : String)
    (hb : b ≠ bname) (hnone : lookupBranch st.branches b = none) :
    lookupBranch (agentPhase e st sname bname cmd).1.branches b = none := by
  by_cases hstart : e.agentStartOk sname
  · by_cases hexit : e.agentExitOk sname
    · simp only [agentPhase, hstart, Bool.not_true, Bool.false_eq_true, if_false, hexit]
      exact commitPhase_branches_other e _ sname bname b hb hnone
    · simpa [agentPhase, hstart, hexit] using hnone
  · simpa [agentPhase, hstart] using hnone

theorem stationWork_branches_other (e : Env) (cfg : Config) (s : Station)
    (pred : String) (st1 : St) (t1 : List Ev) (b : String)
    (hb : b ≠ StationBranchName s.name)
    (hnone : lookupBranch st1.branches b = none) :
    lookupBranch (stationWork e cfg s pred st1 t1).st.branches b = none := by
  have hcu : lookupBranch
      (catchUp e st1.branches s.name (StationBranchName s.name) pred).1 b = none := by
    by_cases hreb : e.rebaseOk s.name
    · simpa [catchUp, hreb, lookupBranch_setBranch_ne hb] using hnone
    · by_cases hres : e.resetOk s.name
      · simpa [catchUp, hreb, hres, lookupBranch_setBranch_ne hb] using hnone
      · simpa [catchUp, hreb, hres] using hnone
  by_cases hbd : e.baseDirOk
  · by_cases hwt : e.worktreeAddOk s.name
    · by_cases hok : (catchUp e st1.branches s.name (StationBranchName s.name) pred).2.2
      · simp only [stationWork, hbd, Bool.not_true, Bool.false_eq_true, if_false,
          hwt, hok, if_true]
        exact agentPhase_branches_other e _ s.name (StationBranchName s.name) _ b hb hcu
      · simpa [stationWork, hbd, hwt, hok] using hcu
    · simpa [stationWork, hbd, hwt] using hnone
  · simpa [stationWork, hbd] using hnone

theorem runStation_branches_other (e : Env) (cfg : Config) (s : Station)
    (pred : String) (st : St) (b : String)
    (hb : b ≠ StationBranchName s.name)
    (hnone : lookupBranch st.branches b = none) :
    lookupBranch (runStation e cfg s pred st).st.branches b = none := by
  by_cases hm : (lookupBranch st.branches (StationBranchName s.name)).isNone
  · by_cases hco : e.createBranchOk (StationBranchName s.name)
    · simp only [runStation, hm, hco, Bool.not_true, Bool.and_false,
        Bool.false_eq_true, if_false, if_true]
      refine stationWork_branches_other e cfg s pred _ _ b hb ?_
      simpa [lookupBranch_cons_ne hb] using hnone
    · simpa [runStation, hm, hco] using hnone
  · simp only [runStation, hm, Bool.false_and, Bool.false_eq_true, if_false]
    exact stationWork_branches_other e cfg s pred st [] b hb hnone

theorem stationWork_trace_prefix_ev (e : Env) (cfg : Config) (s : Station)
    (pred : String) (st1 : St) (t1 : List Ev) (ev : Ev) (hev : ev ∈ t1) :
    ev ∈ (stationWork e cfg s pred st1 t1).trace := by
  by_cases hbd : e.baseDirOk
  · by_cases hwt : e.worktreeAddOk s.name
    · by_cases hok : (catchUp e st1.branches s.name (StationBranchName s.name) pred).2.2
      · simp only [stationWork, hbd, Bool.not_true, Bool.false_eq_true, if_false,
          hwt, hok, if_true]
        simp [List.mem_append, hev]
      · simp only [stationWork, hbd, Bool.not_true, Bool.false_eq_true, if_false,
          hwt, hok, Bool.not_false, if_true]
        simp [List.mem_append, hev]
    · simpa [stationWork, hbd, hwt] using hev
  · simpa [stationWork, hbd] using hev

/-! ## C5 — a failed agent halts the pipeline and marks the station -/

/-- C5: when a station's agent exits non-zero, the executor writes the
station's failure marker, removes its PID file, commits nothing, and fails
the station; the driver's loop then stops, so no later station runs and a
downstream station's output branch that did not exist before is still
absent afterwards; and across any run a failure marker is removed only by
an execution of that station whose agent exits zero. -/
theorem agent_failure_halts (e : Env) (cfg : Config) (s : Station)
    (pred : String) (st : St) (rest : List Station)
    (hcb : e.createBranchOk (StationBranchName s.name) = true)
    (hbd : e.baseDirOk = true)
    (hwt : e.worktreeAddOk s.name = true)
    (hcu : e.rebaseOk s.name = true ∨ e.resetOk s.name = true)
    (hst : e.agentStartOk s.name = true)
    (hfail : e.agentExitOk s.name = false) :
    (runStation e cfg s pred st).ok = false
    ∧ s.name ∈ (runStation e cfg s pred st).st.stationFailed
    ∧ Ev.writeStationFailed s.name ∈ (runStation e cfg s pred st).trace
    ∧ lookupKey (runStation e cfg s pred st).st.stationPids s.name = none
    ∧ (∀ b c, Ev.commit b c ∉ (runStation e cfg s pred st).trace)
    ∧ runStations e cfg st pred (s :: rest)
        = ((runStation e cfg s pred st).st, (runStation e cfg s pred st).trace)
    ∧ (∀ d ∈ rest, StationBranchName d.name ≠ StationBranchName s.name →
        lookupBranch st.branches (StationBranchName d.name) = none →
        lookupBranch (runStations e cfg st pred (s :: rest)).1.branches
          (StationBranchName d.name) = none)
    ∧ (∀ (sts : List Station) (st₀ : St) (pred₀ name : String),
        name ∈ st₀.stationFailed →
        name ∉ (runStations e cfg st₀ pred₀ sts).1.stationFailed →
        Ev.removeStationFailed name ∈ (runStations e cfg st₀ pred₀ sts).2
        ∧ e.agentExitOk name = true) := by
  have hok : (runStation e cfg s pred st).ok = false := by
    by_cases hm : (lookupBranch st.branches (StationBranchName s.name)).isNone <;>
      rcases hcu with hreb | hres <;>
        by_cases hreb' : e.rebaseOk s.name <;>
          simp_all [runStation, stationWork, catchUp, agentPhase, hm, hcb, hbd, hwt,
            hst, hfail]
  have hhalts : runStations e cfg st pred (s :: rest)
      = ((runStation e cfg s pred st).st, (runStation e cfg s pred st).trace) := by
    simp [runStations, hok]
  refine ⟨hok, ?_, ?_, ?_, ?_, hhalts, ?_, ?_⟩
  · by_cases hm : (lookupBranch st.branches (StationBranchName s.name)).isNone <;>
      rcases hcu with hreb | hres <;>
        by_cases hreb' : e.rebaseOk s.name <;>
          (simp_all [runStation, stationWork, catchUp, agentPhase, hm, hcb, hbd, hwt,
            hst, hfail]) <;>
          (split <;> simp_all)
  · by_cases hm : (lookupBranch st.branches (StationBranchName s.name)).isNone <;>
      rcases hcu with hreb | hres <;>
        by_cases hreb' : e.rebaseOk s.name <;>
          simp_all [runStation, stationWork, catchUp, agentPhase, hm, hcb, hbd, hwt,
            hst, hfail]
  · by_cases hm : (lookupBranch st.branches (StationBranchName s.name)).isNone <;>
      rcases hcu with hreb | hres <;>
        by_cases hreb' : e.rebaseOk s.name <;>
          simp_all [runStation, stationWork, catchUp, agentPhase, hm, hcb, hbd, hwt,
            hst, hfail, lookupKey_removeKey]
  · intro b c
    by_cases hm : (lookupBranch st.branches (StationBranchName s.name)).isNone <;>
      rcases hcu with hreb | hres <;>
        by_cases hreb' : e.rebaseOk s.name <;>
          simp_all [runStation, stationWork, catchUp, agentPhase, hm, hcb, hbd, hwt,
            hst, hfail]
  · intro d hd hne hnone
    rw [hhalts]
    exact runStation_branches_other e cfg s pred st _ hne hnone
  · intro sts st₀ pred₀ name hname hnot
    exact runStations_failed_persists e cfg sts st₀ pred₀ name hname hnot



/-- C5 witness. -/
theorem agent_failure_halts_witness :
    Ev.writeStationFailed "security"
      ∈ (runStation envAgentFail cfgSec stationSec "main" st0).trace
    ∧ lookupBranch
        (runStations envAgentFail cfgSec st0 "main" [stationSec, stationDown]).1.branches
        (StationBranchName "docs") = none := by
  have h := agent_failure_halts envAgentFail cfgSec stationSec "main" st0 [stationDown]
    rfl rfl rfl (Or.inl rfl) rfl rfl
  refine ⟨h.2.2.1, ?_⟩
  exact h.2.2.2.2.2.2.1 stationDown (by simp) (by decide) (by decide)

/-! ## C7 — station output branch naming -/



/-- C7 counterexample: with `branch_prefix` configured to `"custom/"`, the
station `x`'s output branch is still created as `line/stn/x` — not
`custom/x` — so the output branch is *not* the configured prefix
concatenated with the name; and a configuration omitting `branch_prefix` is
defaulted by `parse` to `"line/"`, not `"line/stn/"`. -/
theorem station_branch_prefix_cex :
    Ev.createBranch "line/stn/x" "main"
        ∈ (runStation envAllOk cfgCustom stationX "main" st0).trace
    ∧ Ev.createBranch "custom/x" "main"
        ∉ (runStation envAllOk cfgCustom stationX "main" st0).trace
    ∧ lookupBranch (runStation envAllOk cfgCustom stationX "main" st0).st.branches
        "custom/x" = none
    ∧ StationBranchName "x" ≠ cfgCustom.settings.branchPrefix ++ "x"
    ∧ (parse { cfgCustom with
          settings := { branchPrefix := "", watches := "main" } }).settings.branchPrefix
        ≠ "line/stn/" := by
  refine ⟨by decide, by decide, by decide, by decide, by decide⟩

/-- C7 (amended): the output branch of station `n` is always the fixed
prefix `line/stn/` concatenated with `n`; the configured `branch_prefix`
has no effect on the station executor (whose behaviour is invariant under
changing it, and whose `parse` default is `"line/"`); and the branch is
created at the predecessor when it does not yet exist. -/
theorem station_branch_fixed_name (e : Env) (cfg : Config) (bp : String)
    (s : Station) (pred : String) (st : St) :
    StationBranchName s.name = "line/stn/" ++ s.name
    ∧ runStation e { cfg with settings := { cfg.settings with branchPrefix := bp } }
        s pred st = runStation e cfg s pred st
    ∧ (cfg.settings.branchPrefix = "" → (parse cfg).settings.branchPrefix = "line/")
    ∧ ((lookupBranch st.branches (StationBranchName s.name)).isNone = true →
        e.createBranchOk (StationBranchName s.name) = true →
        Ev.createBranch (StationBranchName s.name) pred
          ∈ (runStation e cfg s pred st).trace) := by
  refine ⟨rfl, rfl, ?_, ?_⟩
  · intro h
    simp [parse, h]
  · intro hm hco
    have hrs : runStation e cfg s pred st
        = stationWork e cfg s pred
            { st with branches :=
                (StationBranchName s.name,
                  (lookupBranch st.branches pred).getD []) :: st.branches }
            [Ev.createBranch (StationBranchName s.name) pred] := by
      simp [runStation, hm, hco]
    rw [hrs]
    exact stationWork_trace_prefix_ev e cfg s pred _ _ _ (by simp)

/-- C7 witness (for the amended claim). -/
theorem station_branch_fixed_name_witness :
    Ev.createBranch (StationBranchName "x") "main"
      ∈ (runStation envAllOk cfgCustom stationX "main" st0).trace :=
  (station_branch_fixed_name envAllOk cfgCustom "other/" stationX "main" st0).2.2.2
    (by decide) (by decide)

end AsmLine
